import Mathlib

/-!
Verification of the wrapex command registry core.

Shallow embedding of the TypeScript sources:
- define-command (CommandDefinition, CommandResult, CommandContext, resolveMetadata,
  defineCommand),
- command-registry (createRegistry: register, registerAll, unregister,
  registerForOwner, unregisterForOwner, execute, get, isAvailable, buildContext,
  runMiddleware),
- middleware-pipeline (validationMiddleware, errorBoundaryMiddleware,
  createConfirmationMiddleware),
- validation-middleware (createValidationMiddleware),
- the when-clause evaluator from the when-clause conventions document.

Modelling conventions:
- asynchronous functions that may reject are values of `Comp sigma alpha`:
  state-passing functions returning `Except JsError alpha` together with the state
  reached so far (side effects performed before a throw survive the throw);
- JS records keyed by strings are total functions `String -> Option value`;
- optional fields are `Option`; JS string truthiness (empty string is falsy) is
  modelled explicitly where the source relies on it;
- JS strings, for the when-clause evaluator, are lists of characters, with the
  string primitives used by the source (startsWith, slice, includes, split, trim)
  defined below on lists.
-/

set_option maxRecDepth 4000

namespace Wrapex

/-- The space character, used by the when-clause evaluator model. -/
def spaceChar : Char := Char.ofNat 32

/-- One field-level issue of a Zod validation failure: field path plus message. -/
structure ZodIssue where
  path : List String
  message : String
deriving Repr, DecidableEq

/-- Rendering of a list of Zod issues as the text of a ZodError. The real ZodError
message is a JSON serialization of the issues; no claim depends on its exact shape,
so it is modelled as the standard path-and-message rendering. -/
def zodIssuesText (issues : List ZodIssue) : String :=
  String.intercalate "; "
    (issues.map (fun i => String.intercalate "." i.path ++ ": " ++ i.message))

/-- A thrown JS value: an ordinary Error carrying a message, a ZodError carrying
structured issues, or a non-Error value (whose text is its string conversion). -/
inductive JsError where
  | error (message : String)
  | zodError (issues : List ZodIssue)
  | thrown (text : String)
deriving Repr, DecidableEq

/-- The text extracted from a caught value by the registry and the error boundary:
err.message when err is an instance of Error (ZodError included), String(err)
otherwise. -/
def errText : JsError → String
  | .error m => m
  | .zodError issues => zodIssuesText issues
  | .thrown t => t

/-- A parameter schema capability, as the registry uses Zod: safeParse either
returns the validated (possibly coerced) value or the structured issues. -/
structure Schema (P : Type) where
  safeParse : P → Except (List ZodIssue) P

/-- Zod parse: like safeParse but throwing a ZodError on failure. -/
def Schema.parse {P : Type} (s : Schema P) (p : P) : Except JsError P :=
  match s.safeParse p with
  | .ok v => .ok v
  | .error issues => .error (.zodError issues)

/-- Result returned by every command handler (define-command). -/
structure CommandResult (D : Type) where
  success : Bool
  message : Option String := none
  data : Option D := none
deriving Repr, DecidableEq

/-- Keybinding descriptor (define-command). -/
structure Keybinding where
  key : String
  ctrl : Option Bool := none
  shift : Option Bool := none
  alt : Option Bool := none
  meta : Option Bool := none
deriving Repr, DecidableEq

/-- Policy metadata for risk assessment (define-command). -/
structure PolicyMetadata where
  readOnly : Option Bool := none
  idempotent : Option Bool := none
  riskLevel : Option String := none
  requiresConfirmation : Option Bool := none
deriving Repr, DecidableEq

/-- Structured invocation context (define-command). The free-form metadata record
is opaque to the registry and omitted. -/
structure CommandInvocation where
  surface : String
  actor : Option String := none
  traceId : Option String := none
deriving Repr, DecidableEq

/-- Execution context injected into every command handler (define-command).
`extra` models the index signature for arbitrary host-injected keys; V is the
type of those opaque values, as is the store handle. -/
structure CommandContext (V : Type) where
  store : Option V
  source : String
  invocation : Option CommandInvocation
  extra : String → Option V

/-- Partial CommandContext, as produced by the context provider and the per-call
overrides. An outer `none` means the property is absent from the object. -/
structure CtxPatch (V : Type) where
  store : Option (Option V) := none
  source : Option String := none
  invocation : Option (Option CommandInvocation) := none
  extra : String → Option V := fun _ => none

/-- An async computation over mutable world state sigma that may reject with a
JsError. State mutated before the throw is kept, as in JS. -/
abbrev Comp (σ α : Type) : Type := σ → Except JsError α × σ

/-- Full command definition shape (define-command). sigma is the world state
threaded through effectful calls, P the params type, D the result data type,
V the opaque context value type. -/
structure CommandDefinition (σ P D V : Type) where
  id : String
  label : String
  category : String
  description : Option String := none
  schema : Option (Schema P) := none
  keybinding : Option Keybinding := none
  when : Option String := none
  requiresConfirmation : Option Bool := none
  tags : Option (List String) := none
  metadata : Option PolicyMetadata := none
  isVisible : Option (CommandContext V → Bool) := none
  isEnabled : Option (CommandContext V → Bool) := none
  keywords : Option (List String) := none
  execute : P → CommandContext V → Comp σ (CommandResult D)

/-- Resolve the effective policy metadata, merging the requiresConfirmation
shorthand; metadata wins over the top-level flag (define-command). -/
def resolveMetadata {σ P D V : Type} (cmd : CommandDefinition σ P D V) : PolicyMetadata :=
  { readOnly := some ((cmd.metadata.bind (fun m => m.readOnly)).getD false)
    idempotent := some ((cmd.metadata.bind (fun m => m.idempotent)).getD false)
    riskLevel := some ((cmd.metadata.bind (fun m => m.riskLevel)).getD "medium")
    requiresConfirmation :=
      some (((cmd.metadata.bind (fun m => m.requiresConfirmation)).orElse
        (fun _ => cmd.requiresConfirmation)).getD false) }

/-- defineCommand: validation gate for required fields (define-command). The JS
falsiness check on the required strings is emptiness; execute is required by the
type. Freezing is implicit: Lean values are immutable. -/
def defineCommand {σ P D V : Type} (cmd : CommandDefinition σ P D V) :
    Except JsError (CommandDefinition σ P D V) :=
  if cmd.id = "" ∨ cmd.label = "" ∨ cmd.category = "" then
    .error (.error ("[wrapex] Invalid command definition: id, label, category, and execute are required. Got id=\"" ++ cmd.id ++ "\""))
  else
    .ok cmd

/-- Middleware function signature (command-registry). -/
abbrev Middleware (σ P D V : Type) : Type :=
  CommandDefinition σ P D V → P → CommandContext V →
    (Unit → Comp σ (CommandResult D)) → Comp σ (CommandResult D)

/-- A JS record keyed by strings. -/
abbrev RecordMap (α : Type) : Type := String → Option α

/-- Record update: commands[k] = v (object spread with one new key). -/
def rset {α : Type} (m : RecordMap α) (k : String) (v : α) : RecordMap α :=
  fun x => if x = k then some v else m x

/-- Record deletion: delete m[k]. -/
def rdel {α : Type} (m : RecordMap α) (k : String) : RecordMap α :=
  fun x => if x = k then none else m x

/-- Internal registry state: commands by id, plus owner to owned ids
(command-registry, RegistryState). -/
structure RegistryState (σ P D V : Type) where
  commands : RecordMap (CommandDefinition σ P D V)
  owners : RecordMap (List String)

/-- The store created by createRegistry: both records start empty. -/
def initialState {σ P D V : Type} : RegistryState σ P D V :=
  { commands := fun _ => none, owners := fun _ => none }

/-- Registry configuration (command-registry). -/
structure RegistryConfig (σ P D V : Type) where
  middleware : Option (List (Middleware σ P D V)) := none
  evaluateWhen : Option (String → Bool) := none
  contextProvider : Option (Unit → CtxPatch V) := none

/-- config.middleware ?? [] -/
def effMiddleware {σ P D V : Type} (cfg : RegistryConfig σ P D V) : List (Middleware σ P D V) :=
  cfg.middleware.getD []

/-- config.evaluateWhen ?? (() => true) -/
def effEvaluateWhen {σ P D V : Type} (cfg : RegistryConfig σ P D V) : String → Bool :=
  cfg.evaluateWhen.getD (fun _ => true)

/-- config.contextProvider ?? (() => ({})) -/
def effContextProvider {σ P D V : Type} (cfg : RegistryConfig σ P D V) : Unit → CtxPatch V :=
  cfg.contextProvider.getD (fun _ => {})

/-- The empty partial context object. -/
def emptyPatch {V : Type} : CtxPatch V := {}

/-- The context object before merging: store undefined, source unknown. -/
def baseContext {V : Type} : CommandContext V :=
  { store := none, source := "unknown", invocation := none, extra := fun _ => none }

/-- Object spread of a partial context over a full context: present properties of
the patch win. -/
def mergePatch {V : Type} (base : CommandContext V) (p : CtxPatch V) : CommandContext V :=
  { store := p.store.getD base.store
    source := p.source.getD base.source
    invocation := p.invocation.getD base.invocation
    extra := fun k => match p.extra k with | some v => some v | none => base.extra k }

/-- The source and invocation.surface synchronization step at the end of
buildContext (command-registry). -/
def syncSourceInvocation {V : Type} (m : CommandContext V) : CommandContext V :=
  match m.invocation with
  | some inv => if m.source = "unknown" then { m with source := inv.surface } else m
  | none => if m.source = "unknown" then m else { m with invocation := some { surface := m.source } }

/-- buildContext (command-registry): spread the defaults, then the provider
output, then the overrides, then sync source with invocation.surface. -/
def buildContext {V : Type} (contextProvider : Unit → CtxPatch V)
    (overrides : Option (CtxPatch V)) : CommandContext V :=
  syncSourceInvocation
    (mergePatch (mergePatch baseContext (contextProvider ())) (overrides.getD emptyPatch))

/-- The middleware chain from a given suffix of the configured list
(command-registry, runMiddleware). The source advances a cursor over the array;
since the next function at position i always continues with the remainder from
i+1, the chain is structural recursion on the remaining suffix, the handler being
the terminal step. -/
def runMiddlewareList {σ P D V : Type} (command : CommandDefinition σ P D V) (params : P)
    (context : CommandContext V) : List (Middleware σ P D V) → Comp σ (CommandResult D)
  | [] => command.execute params context
  | mw :: rest => mw command params context (fun _ => runMiddlewareList command params context rest)

/-- runMiddleware (command-registry): run the whole configured chain. -/
def runMiddleware {σ P D V : Type} (middleware : List (Middleware σ P D V))
    (command : CommandDefinition σ P D V) (params : P) (context : CommandContext V) :
    Comp σ (CommandResult D) :=
  runMiddlewareList command params context middleware

/-- JS truthiness of an optional string: absent and empty are falsy. -/
def strTruthy : Option String → Bool
  | none => false
  | some s => s ≠ ""

/-- The when guard of execute: command.when is truthy and the evaluator rejects
it (command-registry, execute step 2). -/
def whenBlocked {σ P D V : Type} (cfg : RegistryConfig σ P D V)
    (command : CommandDefinition σ P D V) : Bool :=
  strTruthy command.when && !(effEvaluateWhen cfg (command.when.getD ""))

/-- The isEnabled guard of execute: the predicate is present and returns false
for the built context (command-registry, execute). -/
def isEnabledBlocked {σ P D V : Type} (command : CommandDefinition σ P D V)
    (context : CommandContext V) : Bool :=
  match command.isEnabled with
  | some f => !(f context)
  | none => false

/-- register (command-registry): fails when the id is already present, otherwise
adds the definition. The thrown Error is the Except error value; on failure no
state is produced, so the previous state is untouched. -/
def register {σ P D V : Type} (s : RegistryState σ P D V)
    (command : CommandDefinition σ P D V) : Except JsError (RegistryState σ P D V) :=
  if (s.commands command.id).isSome then
    .error (.error ("[wrapex] Command \"" ++ command.id ++ "\" is already registered."))
  else
    .ok { s with commands := rset s.commands command.id command }

/-- registerAll (command-registry): builds the new record in one pass, throwing
on the first duplicate (in which case no state update happens). -/
def registerAll {σ P D V : Type} (s : RegistryState σ P D V)
    (cmds : List (CommandDefinition σ P D V)) : Except JsError (RegistryState σ P D V) := do
  let newCommands ← cmds.foldlM
    (fun acc cmd =>
      if (acc cmd.id).isSome then
        Except.error (JsError.error ("[wrapex] Command \"" ++ cmd.id ++ "\" is already registered."))
      else
        pure (rset acc cmd.id cmd))
    s.commands
  pure { s with commands := newCommands }

/-- unregister (command-registry): returns whether the id existed. -/
def unregister {σ P D V : Type} (s : RegistryState σ P D V) (id : String) :
    RegistryState σ P D V × Bool :=
  if (s.commands id).isSome then
    ({ s with commands := rdel s.commands id }, true)
  else
    (s, false)

/-- registerForOwner (command-registry): delete the ids previously registered by
this owner, add the new commands, and point the owner at the new id list. -/
def registerForOwner {σ P D V : Type} (s : RegistryState σ P D V) (owner : String)
    (cmds : List (CommandDefinition σ P D V)) : RegistryState σ P D V :=
  let oldIds := (s.owners owner).getD []
  let cleaned := oldIds.foldl rdel s.commands
  let cleaned2 := cmds.foldl (fun m c => rset m c.id c) cleaned
  { commands := cleaned2, owners := rset s.owners owner (cmds.map (fun c => c.id)) }

/-- unregisterForOwner (command-registry): remove exactly the ids recorded for
the owner; no state change when the owner has none. -/
def unregisterForOwner {σ P D V : Type} (s : RegistryState σ P D V) (owner : String) :
    RegistryState σ P D V :=
  let ids := (s.owners owner).getD []
  if ids.length = 0 then s
  else { commands := ids.foldl rdel s.commands, owners := rdel s.owners owner }

/-- get (command-registry). -/
def get {σ P D V : Type} (s : RegistryState σ P D V) (id : String) :
    Option (CommandDefinition σ P D V) :=
  s.commands id

/-- isAvailable (command-registry): false for an unknown id, true for a command
without a (truthy) when clause, the evaluator verdict otherwise. -/
def isAvailable {σ P D V : Type} (s : RegistryState σ P D V) (cfg : RegistryConfig σ P D V)
    (id : String) : Bool :=
  match s.commands id with
  | none => false
  | some cmd => if !(strTruthy cmd.when) then true else effEvaluateWhen cfg (cmd.when.getD "")

/-- The overrides object execute passes to buildContext: the caller overrides
spread over a source:"unknown" default. -/
def executePatch {V : Type} (contextOverrides : Option (CtxPatch V)) : CtxPatch V :=
  let o := contextOverrides.getD emptyPatch
  { o with source := some (o.source.getD "unknown") }

/-- execute (command-registry): unknown-id guard, when guard, context build,
isEnabled guard, then the middleware chain inside the outer try/catch. The
codomain is a plain result with final state: no exception can escape. -/
def execute {σ P D V : Type} (s : RegistryState σ P D V) (cfg : RegistryConfig σ P D V)
    (emptyObj : P) (id : String) (params : Option P)
    (contextOverrides : Option (CtxPatch V)) : σ → CommandResult D × σ := fun s0 =>
  match s.commands id with
  | none => ({ success := false, message := some ("Unknown command: \"" ++ id ++ "\"") }, s0)
  | some command =>
    if whenBlocked cfg command then
      ({ success := false
         message := some ("Command \"" ++ id ++ "\" is not available in the current context (when: \"" ++ command.when.getD "" ++ "\").") }, s0)
    else
      let context := buildContext (effContextProvider cfg) (some (executePatch contextOverrides))
      if isEnabledBlocked command context then
        ({ success := false, message := some ("Command \"" ++ id ++ "\" is currently disabled.") }, s0)
      else
        match runMiddleware (effMiddleware cfg) command (params.getD emptyObj) context s0 with
        | (.ok r, s1) => (r, s1)
        | (.error e, s1) => ({ success := false, message := some ("Command \"" ++ id ++ "\" failed: " ++ errText e) }, s1)

/-- validationMiddleware (middleware-pipeline): parse against the schema when
present (throwing on failure), then continue; the parse result is discarded. -/
def validationMiddleware {σ P D V : Type} : Middleware σ P D V :=
  fun command params _context next => fun s0 =>
    match command.schema with
    | some schema =>
      match schema.parse params with
      | .ok _ => next () s0
      | .error e => (.error e, s0)
    | none => next () s0

/-- errorBoundaryMiddleware (middleware-pipeline): catch any downstream throw and
convert it to a failure result. The console trace is not modelled. -/
def errorBoundaryMiddleware {σ P D V : Type} : Middleware σ P D V :=
  fun _command _params _context next => fun s0 =>
    match next () s0 with
    | (.ok r, s1) => (.ok r, s1)
    | (.error e, s1) => (.ok { success := false, message := some (errText e) }, s1)

/-- createConfirmationMiddleware (middleware-pipeline): when the definition has
requiresConfirmation set, ask the host confirm function; on decline return the
fixed cancellation result, otherwise continue. -/
def createConfirmationMiddleware {σ P D V : Type}
    (confirmFn : CommandDefinition σ P D V → Comp σ Bool) : Middleware σ P D V :=
  fun command _params _context next => fun s0 =>
    if (command.requiresConfirmation).getD false then
      match confirmFn command s0 with
      | (.ok confirmed, s1) =>
        if !confirmed then
          (.ok { success := false, message := some "Cancelled by user." }, s1)
        else
          next () s1
      | (.error e, s1) => (.error e, s1)
    else
      next () s0

/-! ### When-clause evaluator

The evaluator from the when-clause conventions document, over an environment of
boolean context keys. JS strings are modelled as lists of characters; the string
primitives the source uses are defined first.
-/

/-- First occurrence split: the part before the first occurrence of sep and the
part after it, or none when sep does not occur. -/
def splitFirst (sep : List Char) : List Char → Option (List Char × List Char)
  | [] => none
  | c :: rest =>
    if sep.isPrefixOf (c :: rest) then some ([], (c :: rest).drop sep.length)
    else
      match splitFirst sep rest with
      | some pq => some (c :: pq.1, pq.2)
      | none => none

/-- JS String.includes for a nonempty needle. -/
def containsSub (sep l : List Char) : Bool :=
  (splitFirst sep l).isSome

/-- JS String.split by a separator substring, fuelled (each step strictly
shortens the remainder, so length + 1 fuel always suffices). -/
def splitOnSubF (sep : List Char) : Nat → List Char → List (List Char)
  | 0, l => [l]
  | n + 1, l =>
    match splitFirst sep l with
    | none => [l]
    | some pq => pq.1 :: splitOnSubF sep n pq.2

/-- JS String.split by a separator substring. -/
def splitOnSub (sep l : List Char) : List (List Char) :=
  splitOnSubF sep (l.length + 1) l

/-- JS String.trim, for the space character (the only whitespace the clauses of
the conventions document use). -/
def trimChars (l : List Char) : List Char :=
  ((l.dropWhile (· == spaceChar)).reverse.dropWhile (· == spaceChar)).reverse

/-- evaluateWhen from the conventions document, fuelled for the recursive calls
on split parts. Branches in source order: a leading bang is a negated direct
lookup (the trailing nullish-coalescing with false in the source never applies,
since the negation is already boolean); then the and-split, then the or-split,
then a direct lookup defaulting to false. -/
def evalWhenF (context : List Char → Option Bool) : Nat → List Char → Bool
  | 0, _ => false
  | n + 1, clause =>
    if clause.head? = some '!' then
      !((context (clause.drop 1)).getD false)
    else if containsSub ['&', '&'] clause then
      (splitOnSub ['&', '&'] clause).all (fun part => evalWhenF context n (trimChars part))
    else if containsSub ['|', '|'] clause then
      (splitOnSub ['|', '|'] clause).any (fun part => evalWhenF context n (trimChars part))
    else
      (context clause).getD false

/-- evaluateWhen from the conventions document: recursion depth is bounded by
the clause length. -/
def evaluateWhen (context : List Char → Option Bool) (clause : List Char) : Bool :=
  evalWhenF context (clause.length + 1) clause

/-- An identifier-like bare context key: nonempty and free of the operator
characters (bang, ampersand, pipe) and spaces. -/
def IsKey (k : List Char) : Prop :=
  k ≠ [] ∧ ∀ c ∈ k, c ≠ '!' ∧ c ≠ '&' ∧ c ≠ '|' ∧ c ≠ spaceChar

instance : DecidablePred IsKey := fun k => by
  unfold IsKey
  infer_instance

/-- ValidationConfig (validation-middleware). -/
structure ValidationConfig where
  catchErrors : Option Bool := none

/-- createValidationMiddleware (validation-middleware): pass through when no
schema; with catchErrors, turn safeParse issues into an inline failure result;
otherwise parse and let the ZodError propagate. Note the chain offers no way to
pass the parsed value on: next takes no argument, so the original params continue
down the chain in every case. -/
def createValidationMiddleware {σ P D V : Type} (config : ValidationConfig) :
    Middleware σ P D V :=
  fun command params _context next => fun s0 =>
    match command.schema with
    | none => next () s0
    | some schema =>
      if config.catchErrors.getD false then
        match schema.safeParse params with
        | .error issues =>
          (.ok { success := false
                 message := some ("Validation failed for \"" ++ command.id ++ "\": " ++ zodIssuesText issues) }, s0)
        | .ok _ => next () s0
      else
        match schema.parse params with
        | .error e => (.error e, s0)
        | .ok _ => next () s0

/-! ### Concrete instances used by the claim theorems and witnesses -/

/-- A pass-through spy middleware that logs a before event, continues, and logs
an after event (as middleware A and B of the ordering scenario). -/
def spyMW {P D V : Type} (name : String) : Middleware (List String) P D V :=
  fun _command _params _context next => fun log0 =>
    match next () (log0 ++ [name ++ "-before"]) with
    | (.ok r, log1) => (.ok r, log1 ++ [name ++ "-after"])
    | (.error e, log1) => (.error e, log1)

/-- A command whose handler is the given function; used to observe what the
chain does with the handler. -/
def spyCommandWith {P D V : Type}
    (h : P → CommandContext V → Comp (List String) (CommandResult D)) :
    CommandDefinition (List String) P D V :=
  { id := "spy.command", label := "Spy", category := "Test", execute := h }

/-- A handler that logs its invocation. -/
def spyHandler {P D V : Type} : P → CommandContext V → Comp (List String) (CommandResult D) :=
  fun _ _ => fun log0 => (.ok { success := true }, log0 ++ ["handler"])

/-- The spy command with the logging handler. -/
def spyCommand {P D V : Type} : CommandDefinition (List String) P D V :=
  spyCommandWith spyHandler

/-- A middleware that returns the given result without calling next. -/
def shortCircuitMW {σ P D V : Type} (r : CommandResult D) : Middleware σ P D V :=
  fun _command _params _context _next => fun s0 => (.ok r, s0)

/-- A schema whose validation coerces the value: safeParse appends a bang. -/
def coerceSchema : Schema String :=
  { safeParse := fun s => .ok (s ++ "!") }

/-- A handler that records the params value it receives. -/
def recordingHandler : String → CommandContext Unit → Comp (List String) (CommandResult Unit) :=
  fun p _ => fun log0 => (.ok { success := true }, log0 ++ [p])

/-- A command with the coercing schema and the recording handler. -/
def coerceCommand : CommandDefinition (List String) String Unit Unit :=
  { id := "demo.coerce", label := "Coerce", category := "Test",
    schema := some coerceSchema, execute := recordingHandler }

/-- A command whose handler reports the source of the context it receives. -/
def sourceCmd : CommandDefinition Unit Unit String Unit :=
  { id := "ctx.show", label := "Show Source", category := "Test",
    execute := fun _ ctx => fun s0 => (.ok { success := true, data := some ctx.source }, s0) }

/-- A context provider that supplies source = palette. -/
def paletteProvider : Unit → CtxPatch Unit :=
  fun _ => { source := some "palette" }

/-- Registry state holding only sourceCmd. -/
def stateC9 : RegistryState Unit Unit String Unit :=
  ((register initialState sourceCmd).toOption).getD initialState

/-- Registry configuration with the palette provider and nothing else. -/
def cfgC9 : RegistryConfig Unit Unit String Unit :=
  { contextProvider := some paletteProvider }

/-- Modelled from the spec (claim C9 sentence): the execution context is built
by merging the default-context provider output with the per-call overrides,
overrides winning on key conflict, over the base defaults; nothing else. This
definition follows the spec words and exists to be compared with buildContext as
execute calls it. -/
def specMergedContext {V : Type} (contextProvider : Unit → CtxPatch V)
    (overrides : Option (CtxPatch V)) : CommandContext V :=
  mergePatch (mergePatch baseContext (contextProvider ())) (overrides.getD emptyPatch)

/-- A command whose handler rejects with an Error (for claim C1). -/
def throwCmd : CommandDefinition Unit Unit Unit Unit :=
  { id := "demo.throw", label := "Throw", category := "Test",
    execute := fun _ _ => fun s0 => (.error (.error "boom"), s0) }

/-- Registry state holding only throwCmd. -/
def stateC1 : RegistryState Unit Unit Unit Unit :=
  ((register initialState throwCmd).toOption).getD initialState

/-- A command gated by a when clause (for claim C2). -/
def whenCmd : CommandDefinition Unit Unit Unit Unit :=
  { id := "demo.gated", label := "Gated", category := "Test", when := some "app.flag",
    execute := fun _ _ => fun s0 => (.ok { success := true }, s0) }

/-- A command whose isEnabled predicate always rejects (for claim C2). -/
def disabledCmd : CommandDefinition Unit Unit Unit Unit :=
  { id := "demo.disabled", label := "Disabled", category := "Test",
    isEnabled := some (fun _ => false),
    execute := fun _ _ => fun s0 => (.ok { success := true }, s0) }

/-- Registry state holding whenCmd and disabledCmd. -/
def stateC2 : RegistryState Unit Unit Unit Unit :=
  ((registerAll initialState [whenCmd, disabledCmd]).toOption).getD initialState

/-- Registry configuration whose evaluator rejects every clause. -/
def cfgC2 : RegistryConfig Unit Unit Unit Unit :=
  { evaluateWhen := some (fun _ => false) }

/-- A plain parameterless command (for claims C3, C5, C10). -/
def plainCmd (id : String) : CommandDefinition Unit Unit Unit Unit :=
  { id := id, label := id, category := "Test",
    execute := fun _ _ => fun s0 => (.ok { success := true }, s0) }

/-- A second definition sharing an id with plainCmd "demo.x" (for claim C10). -/
def plainCmd2 : CommandDefinition Unit Unit Unit Unit :=
  { id := "demo.x", label := "Replacement", category := "Test",
    execute := fun _ _ => fun s0 => (.ok { success := true }, s0) }

/-- Registry state holding only plainCmd "demo.x" (for claims C3 and C10). -/
def stateC10 : RegistryState Unit Unit Unit Unit :=
  ((register initialState (plainCmd "demo.x")).toOption).getD initialState

/-- A command with requiresConfirmation set (for claim C7). -/
def flaggedCmd : CommandDefinition Unit Unit Unit Unit :=
  { id := "demo.risky", label := "Risky", category := "Test",
    requiresConfirmation := some true,
    execute := fun _ _ => fun s0 => (.ok { success := true }, s0) }

/-- A confirm predicate that declines. -/
def confirmNo : CommandDefinition Unit Unit Unit Unit → Comp Unit Bool :=
  fun _ => fun s0 => (.ok false, s0)

/-- A confirm predicate that accepts. -/
def confirmYes : CommandDefinition Unit Unit Unit Unit → Comp Unit Bool :=
  fun _ => fun s0 => (.ok true, s0)

/-- A concrete when-clause environment: a is true, b is false, all else absent. -/
def envW : List Char → Option Bool :=
  fun k => if k = ['a'] then some true else if k = ['b'] then some false else none

/-- A provider patch carrying a source, an invocation-free record and one extra
key (for the claim C9 amended witness). -/
def provW : Unit → CtxPatch Unit :=
  fun _ => { source := some "palette", extra := fun k => if k = "shade" then some () else none }

/-- An overrides patch carrying a store, a source and the same extra key (for
the claim C9 amended witness). -/
def ovW : CtxPatch Unit :=
  { store := some (some ()), source := some "mcp",
    extra := fun k => if k = "shade" then some () else none }

/-- Substring containment, used to state that a failure message carries a piece
of text. -/
def strContains (s sub : String) : Prop :=
  ∃ pre post, s = pre ++ sub ++ post

/-! ### Helper lemmas -/

theorem rset_self {α : Type} (m : RecordMap α) (k : String) (v : α) : rset m k v k = some v := by
  simp [rset]

theorem rset_other {α : Type} (m : RecordMap α) (k k2 : String) (v : α) (h : k2 ≠ k) :
    rset m k v k2 = m k2 := by
  simp [rset, h]

theorem rdel_self {α : Type} (m : RecordMap α) (k : String) : rdel m k k = none := by
  simp [rdel]

theorem foldl_rdel_none {α : Type} :
    ∀ (ids : List String) (m : RecordMap α) (id : String),
      m id = none → (ids.foldl rdel m) id = none := by
  intro ids
  induction ids with
  | nil => intro m id h; simpa using h
  | cons k ks ih =>
    intro m id h
    simp only [List.foldl_cons]
    exact ih (rdel m k) id (by by_cases hk : id = k <;> simp [rdel, hk, h])

theorem foldl_rdel_mem {α : Type} :
    ∀ (ids : List String) (m : RecordMap α) (id : String),
      id ∈ ids → (ids.foldl rdel m) id = none := by
  intro ids
  induction ids with
  | nil => intro m id h; exact absurd h (List.not_mem_nil id)
  | cons k ks ih =>
    intro m id h
    simp only [List.foldl_cons]
    rcases List.mem_cons.mp h with h1 | h1
    · exact foldl_rdel_none ks (rdel m k) id (by simp [rdel, h1])
    · exact ih (rdel m k) id h1

theorem foldl_addCmds_not_mem {σ P D V : Type} :
    ∀ (cmds : List (CommandDefinition σ P D V)) (m : RecordMap (CommandDefinition σ P D V))
      (id : String), id ∉ cmds.map (fun c => c.id) →
      (cmds.foldl (fun m2 c => rset m2 c.id c) m) id = m id := by
  intro cmds
  induction cmds with
  | nil => intro m id _; rfl
  | cons c cs ih =>
    intro m id h
    simp only [List.map_cons, List.mem_cons, not_or] at h
    simp only [List.foldl_cons]
    rw [ih (rset m c.id c) id h.2, rset_other m c.id id c h.1]

theorem foldl_addCmds_isSome {σ P D V : Type} :
    ∀ (cmds : List (CommandDefinition σ P D V)) (m : RecordMap (CommandDefinition σ P D V))
      (id : String), (m id).isSome = true →
      ((cmds.foldl (fun m2 c => rset m2 c.id c) m) id).isSome = true := by
  intro cmds
  induction cmds with
  | nil => intro m id h; simpa using h
  | cons c cs ih =>
    intro m id h
    simp only [List.foldl_cons]
    refine ih (rset m c.id c) id ?_
    by_cases hk : id = c.id <;> simp [rset, hk, h]

theorem foldl_addCmds_mem {σ P D V : Type} :
    ∀ (cmds : List (CommandDefinition σ P D V)) (m : RecordMap (CommandDefinition σ P D V))
      (id : String), id ∈ cmds.map (fun c => c.id) →
      ((cmds.foldl (fun m2 c => rset m2 c.id c) m) id).isSome = true := by
  intro cmds
  induction cmds with
  | nil => intro m id h; exact absurd h (List.not_mem_nil id)
  | cons c cs ih =>
    intro m id h
    rw [List.map_cons] at h
    simp only [List.foldl_cons]
    rcases List.mem_cons.mp h with h1 | h1
    · exact foldl_addCmds_isSome cs (rset m c.id c) id (by simp [rset, h1])
    · exact ih (rset m c.id c) id h1

/-! ### Claim theorems -/

/-- Claim C3: register followed by get returns the registered definition, and
registering an already-present id fails with the duplicate-id error while the
prior registration stays retrievable. -/
theorem claim_C3 (σ P D V : Type) (s : RegistryState σ P D V)
    (d d0 : CommandDefinition σ P D V) :
    (s.commands d.id = none →
      ∃ s2, register s d = .ok s2 ∧ get s2 d.id = some d) ∧
    (s.commands d.id = some d0 →
      register s d =
        .error (.error ("[wrapex] Command \"" ++ d.id ++ "\" is already registered.")) ∧
      get s d.id = some d0) := by
  constructor
  · intro h
    refine ⟨{ s with commands := rset s.commands d.id d }, ?_, ?_⟩
    · simp [register, h]
    · simp [get, rset]
  · intro h
    exact ⟨by simp [register, h], h⟩

/-- Claim C3 witness: concrete registration round-trip and duplicate failure. -/
theorem claim_C3_witness :
    (∃ s2, register initialState (plainCmd "demo.x") = .ok s2 ∧
      get s2 "demo.x" = some (plainCmd "demo.x")) ∧
    register stateC10 plainCmd2 =
      .error (.error "[wrapex] Command \"demo.x\" is already registered.") :=
  ⟨(claim_C3 Unit Unit Unit Unit initialState (plainCmd "demo.x") (plainCmd "demo.x")).1 rfl,
   ((claim_C3 Unit Unit Unit Unit stateC10 plainCmd2 (plainCmd "demo.x")).2 rfl).1⟩

/-- Claim C10: registerForOwner accepts a duplicate id, silently replacing the
existing registration, and a later unregisterForOwner for that owner removes the
id even though the displaced registration came from another party. -/
theorem claim_C10 (σ P D V : Type) (s : RegistryState σ P D V) (o : String)
    (d d0 : CommandDefinition σ P D V) (_h : s.commands d.id = some d0) :
    get (registerForOwner s o [d]) d.id = some d ∧
    get (unregisterForOwner (registerForOwner s o [d]) o) d.id = none := by
  constructor
  · simp [registerForOwner, get, rset]
  · simp [registerForOwner, unregisterForOwner, get, rset, rdel]

/-- Claim C10 witness: plainCmd2 displaces plainCmd "demo.x" via owner
registration, then owner unregistration removes the id. -/
theorem claim_C10_witness :
    get (registerForOwner stateC10 "ownerA" [plainCmd2]) "demo.x" = some plainCmd2 ∧
    get (unregisterForOwner (registerForOwner stateC10 "ownerA" [plainCmd2]) "ownerA")
      "demo.x" = none :=
  claim_C10 Unit Unit Unit Unit stateC10 "ownerA" plainCmd2 (plainCmd "demo.x") rfl

/-- Claim C5: re-registering under the same owner replaces the owned set (the
new ids are present, the old ids not re-registered are gone, the ownership path
records exactly the new ids), and unregisterForOwner for an unknown owner is a
no-op. -/
theorem claim_C5 (σ P D V : Type) (s : RegistryState σ P D V) (o : String)
    (L1 L2 : List (CommandDefinition σ P D V)) :
    ((registerForOwner (registerForOwner s o L1) o L2).owners o =
      some (L2.map (fun c => c.id))) ∧
    (∀ id, id ∈ L2.map (fun c => c.id) →
      (get (registerForOwner (registerForOwner s o L1) o L2) id).isSome = true) ∧
    (∀ id, id ∈ L1.map (fun c => c.id) → id ∉ L2.map (fun c => c.id) →
      get (registerForOwner (registerForOwner s o L1) o L2) id = none) ∧
    (∀ (s2 : RegistryState σ P D V) (o2 : String), s2.owners o2 = none →
      unregisterForOwner s2 o2 = s2) := by
  refine ⟨?_, ?_, ?_, ?_⟩
  · simp [registerForOwner, rset]
  · intro id hmem
    exact foldl_addCmds_mem L2 _ id hmem
  · intro id hmem1 hmem2
    show (L2.foldl (fun m2 c => rset m2 c.id c) _) id = none
    rw [foldl_addCmds_not_mem L2 _ id hmem2]
    show (((registerForOwner s o L1).owners o).getD []).foldl rdel _ id = none
    refine foldl_rdel_mem _ _ id ?_
    simp [registerForOwner, rset, hmem1]
  · intro s2 o2 h
    simp [unregisterForOwner, h]

/-- Claim C5 witness: owner replacement with ids x, y then z, and the unknown
owner no-op, at concrete inputs. -/
theorem claim_C5_witness :
    ((registerForOwner (registerForOwner initialState "ownerA"
        [plainCmd "demo.xx", plainCmd "demo.y"]) "ownerA" [plainCmd "demo.z"]).owners
      "ownerA" = some ["demo.z"]) ∧
    ((get (registerForOwner (registerForOwner initialState "ownerA"
        [plainCmd "demo.xx", plainCmd "demo.y"]) "ownerA" [plainCmd "demo.z"])
      "demo.z").isSome = true) ∧
    (get (registerForOwner (registerForOwner initialState "ownerA"
        [plainCmd "demo.xx", plainCmd "demo.y"]) "ownerA" [plainCmd "demo.z"])
      "demo.xx" = none) ∧
    (unregisterForOwner initialState "ownerB" = (initialState : RegistryState Unit Unit Unit Unit)) :=
  ⟨(claim_C5 Unit Unit Unit Unit initialState "ownerA"
      [plainCmd "demo.xx", plainCmd "demo.y"] [plainCmd "demo.z"]).1,
   (claim_C5 Unit Unit Unit Unit initialState "ownerA"
      [plainCmd "demo.xx", plainCmd "demo.y"] [plainCmd "demo.z"]).2.1 "demo.z"
      (by simp [plainCmd]),
   (claim_C5 Unit Unit Unit Unit initialState "ownerA"
      [plainCmd "demo.xx", plainCmd "demo.y"] [plainCmd "demo.z"]).2.2.1 "demo.xx"
      (by simp [plainCmd]) (by simp [plainCmd]),
   (claim_C5 Unit Unit Unit Unit initialState "ownerA"
      [plainCmd "demo.xx", plainCmd "demo.y"] [plainCmd "demo.z"]).2.2.2 initialState
      "ownerB" rfl⟩

/-- Claim C1: when the middleware chain or the handler rejects, execute catches
the error at its outer boundary and returns a failure result whose message
contains the text of the underlying error; execute is a total function into
CommandResult, so no exception reaches its caller. -/
theorem claim_C1 (σ P D V : Type) (s : RegistryState σ P D V) (cfg : RegistryConfig σ P D V)
    (emptyObj : P) (id : String) (params : Option P) (ov : Option (CtxPatch V))
    (command : CommandDefinition σ P D V) (e : JsError) (s0 s1 : σ)
    (hcmd : s.commands id = some command)
    (hwhen : whenBlocked cfg command = false)
    (hen : isEnabledBlocked command
      (buildContext (effContextProvider cfg) (some (executePatch ov))) = false)
    (hrun : runMiddleware (effMiddleware cfg) command (params.getD emptyObj)
      (buildContext (effContextProvider cfg) (some (executePatch ov))) s0 = (.error e, s1)) :
    execute s cfg emptyObj id params ov s0 =
      ({ success := false,
         message := some ("Command \"" ++ id ++ "\" failed: " ++ errText e) }, s1) ∧
    strContains ("Command \"" ++ id ++ "\" failed: " ++ errText e) (errText e) := by
  constructor
  · simp [execute, hcmd, hwhen, hen, hrun]
  · exact ⟨"Command \"" ++ id ++ "\" failed: ", "", by simp⟩

/-- Claim C1 witness: a handler rejecting with boom yields the failure result
carrying boom. -/
theorem claim_C1_witness :
    execute stateC1 {} () "demo.throw" (some ()) none () =
      ({ success := false, message := some "Command \"demo.throw\" failed: boom" }, ()) :=
  (claim_C1 Unit Unit Unit Unit stateC1 {} () "demo.throw" (some ()) none throwCmd
    (.error "boom") () () rfl rfl rfl rfl).1

/-- Claim C2: the guard steps of execute run in order and each short-circuits
with the final state unchanged (no middleware and no handler effect), for every
middleware configuration: unknown id yields a failure naming the id; a truthy
when clause the evaluator rejects yields a failure naming the id and the clause;
an isEnabled predicate rejecting the built context yields the disabled failure. -/
theorem claim_C2 (σ P D V : Type) (s : RegistryState σ P D V) (cfg : RegistryConfig σ P D V)
    (emptyObj : P) (id : String) (params : Option P) (ov : Option (CtxPatch V)) (s0 : σ) :
    (s.commands id = none →
      execute s cfg emptyObj id params ov s0 =
        ({ success := false, message := some ("Unknown command: \"" ++ id ++ "\"") }, s0) ∧
      strContains ("Unknown command: \"" ++ id ++ "\"") id) ∧
    (∀ (command : CommandDefinition σ P D V) (w : String),
      s.commands id = some command → command.when = some w → w ≠ "" →
      effEvaluateWhen cfg w = false →
      execute s cfg emptyObj id params ov s0 =
        ({ success := false,
           message := some ("Command \"" ++ id ++ "\" is not available in the current context (when: \"" ++ w ++ "\").") }, s0) ∧
      strContains
        ("Command \"" ++ id ++ "\" is not available in the current context (when: \"" ++ w ++ "\").") id ∧
      strContains
        ("Command \"" ++ id ++ "\" is not available in the current context (when: \"" ++ w ++ "\").") w) ∧
    (∀ (command : CommandDefinition σ P D V) (f : CommandContext V → Bool),
      s.commands id = some command → whenBlocked cfg command = false →
      command.isEnabled = some f →
      f (buildContext (effContextProvider cfg) (some (executePatch ov))) = false →
      execute s cfg emptyObj id params ov s0 =
        ({ success := false,
           message := some ("Command \"" ++ id ++ "\" is currently disabled.") }, s0)) := by
  refine ⟨?_, ?_, ?_⟩
  · intro h
    refine ⟨by simp [execute, h], "Unknown command: \"", "\"", by simp [String.append_assoc]⟩
  · intro command w hcmd hw hne heval
    have hwb : whenBlocked cfg command = true := by
      simp [whenBlocked, hw, strTruthy, hne, heval]
    refine ⟨?_, ?_, ?_⟩
    · simp [execute, hcmd, hwb, hw]
    · exact ⟨"Command \"",
        "\" is not available in the current context (when: \"" ++ w ++ "\").",
        by simp [String.append_assoc]⟩
    · exact ⟨"Command \"" ++ id ++ "\" is not available in the current context (when: \"",
        "\").", by simp [String.append_assoc]⟩
  · intro command f hcmd hwb hf hval
    have hen : isEnabledBlocked command
        (buildContext (effContextProvider cfg) (some (executePatch ov))) = true := by
      simp [isEnabledBlocked, hf, hval]
    simp [execute, hcmd, hwb, hen]

/-- Claim C2 witness: the three guards at concrete inputs (unknown id; rejected
when clause; rejecting isEnabled predicate). -/
theorem claim_C2_witness :
    (execute initialState ({} : RegistryConfig Unit Unit Unit Unit) () "no.such" (some ())
        none () =
      ({ success := false, message := some "Unknown command: \"no.such\"" }, ())) ∧
    (execute stateC2 cfgC2 () "demo.gated" (some ()) none () =
      ({ success := false,
         message := some "Command \"demo.gated\" is not available in the current context (when: \"app.flag\")." }, ())) ∧
    (execute stateC2 ({} : RegistryConfig Unit Unit Unit Unit) () "demo.disabled" (some ())
        none () =
      ({ success := false, message := some "Command \"demo.disabled\" is currently disabled." }, ())) :=
  ⟨((claim_C2 Unit Unit Unit Unit initialState {} () "no.such" (some ()) none ()).1 rfl).1,
   ((claim_C2 Unit Unit Unit Unit stateC2 cfgC2 () "demo.gated" (some ()) none ()).2.1
      whenCmd "app.flag" rfl rfl (by decide) rfl).1,
   (claim_C2 Unit Unit Unit Unit stateC2 {} () "demo.disabled" (some ()) none ()).2.2
      disabledCmd (fun _ => false) rfl rfl rfl rfl⟩

/-- Claim C7: with the flag set and the confirm predicate declining, the chain
headed by the confirmation middleware returns exactly the cancellation result
and never reaches the handler (the rest of the chain is irrelevant); with the
flag set and the predicate accepting, the middleware continues with next; with
the flag unset, the middleware is a pure pass-through and the confirm predicate
is never consulted (the outcome is the same for every predicate). -/
theorem claim_C7 (σ P D V : Type) :
    (∀ (confirmFn : CommandDefinition σ P D V → Comp σ Bool)
       (command : CommandDefinition σ P D V) (p : P) (ctx : CommandContext V)
       (rest : List (Middleware σ P D V)) (s0 s1 : σ),
       command.requiresConfirmation = some true →
       confirmFn command s0 = (.ok false, s1) →
       runMiddleware (createConfirmationMiddleware confirmFn :: rest) command p ctx s0 =
         (.ok { success := false, message := some "Cancelled by user." }, s1)) ∧
    (∀ (confirmFn : CommandDefinition σ P D V → Comp σ Bool)
       (command : CommandDefinition σ P D V) (p : P) (ctx : CommandContext V)
       (next : Unit → Comp σ (CommandResult D)) (s0 s1 : σ),
       command.requiresConfirmation = some true →
       confirmFn command s0 = (.ok true, s1) →
       createConfirmationMiddleware confirmFn command p ctx next s0 = next () s1) ∧
    (∀ (confirmFn confirmFn2 : CommandDefinition σ P D V → Comp σ Bool)
       (command : CommandDefinition σ P D V) (p : P) (ctx : CommandContext V)
       (next : Unit → Comp σ (CommandResult D)) (s0 : σ),
       (command.requiresConfirmation).getD false = false →
       createConfirmationMiddleware confirmFn command p ctx next s0 = next () s0 ∧
       createConfirmationMiddleware confirmFn command p ctx next s0 =
         createConfirmationMiddleware confirmFn2 command p ctx next s0) := by
  refine ⟨?_, ?_, ?_⟩
  · intro confirmFn command p ctx rest s0 s1 hflag hconfirm
    simp [runMiddleware, runMiddlewareList, createConfirmationMiddleware, hflag, hconfirm]
  · intro confirmFn command p ctx next s0 s1 hflag hconfirm
    simp [createConfirmationMiddleware, hflag, hconfirm]
  · intro confirmFn confirmFn2 command p ctx next s0 hflag
    constructor
    · simp [createConfirmationMiddleware, hflag]
    · simp [createConfirmationMiddleware, hflag]

/-- Claim C7 witness: the flagged command with a declining predicate yields
exactly the cancellation result; with an accepting predicate the chain
continues; an unflagged command passes through for any predicate. -/
theorem claim_C7_witness :
    (runMiddleware [createConfirmationMiddleware confirmNo] flaggedCmd () baseContext () =
      (.ok { success := false, message := some "Cancelled by user." }, ())) ∧
    (createConfirmationMiddleware confirmYes flaggedCmd () baseContext
        (fun _ => fun s0 => (.ok { success := true }, s0)) () =
      (.ok { success := true }, ())) ∧
    (createConfirmationMiddleware confirmNo (plainCmd "demo.plain") () baseContext
        (fun _ => fun s0 => (.ok { success := true }, s0)) () =
      (.ok { success := true }, ())) :=
  ⟨(claim_C7 Unit Unit Unit Unit).1 confirmNo flaggedCmd () baseContext [] () () rfl rfl,
   (claim_C7 Unit Unit Unit Unit).2.1 confirmYes flaggedCmd () baseContext
     (fun _ => fun s0 => (.ok { success := true }, s0)) () () rfl rfl,
   ((claim_C7 Unit Unit Unit Unit).2.2 confirmNo confirmYes (plainCmd "demo.plain") ()
     baseContext (fun _ => fun s0 => (.ok { success := true }, s0)) () rfl).1⟩

/-- Claim C4: the chain calls the first configured middleware outermost and the
handler innermost, in array order (before events in list order, the handler,
then the after events in reverse order); and a middleware that returns a result
without calling next prevents the handler from ever being invoked, whatever the
handler and the remainder of the chain are. -/
theorem claim_C4 (P D V : Type) :
    (∀ (names : List String) (p : P) (ctx : CommandContext V) (log0 : List String),
      runMiddleware (names.map spyMW)
          (spyCommand : CommandDefinition (List String) P D V) p ctx log0 =
        (.ok { success := true },
         log0 ++ names.map (fun n => n ++ "-before") ++ ["handler"] ++
           names.reverse.map (fun n => n ++ "-after"))) ∧
    (∀ (names : List String) (r : CommandResult D)
       (rest : List (Middleware (List String) P D V))
       (handler : P → CommandContext V → Comp (List String) (CommandResult D))
       (p : P) (ctx : CommandContext V) (log0 : List String),
      runMiddleware (names.map spyMW ++ shortCircuitMW r :: rest) (spyCommandWith handler)
          p ctx log0 =
        (.ok r, log0 ++ names.map (fun n => n ++ "-before") ++
          names.reverse.map (fun n => n ++ "-after"))) := by
  constructor
  · intro names
    induction names with
    | nil =>
      intro p ctx log0
      simp [runMiddleware, runMiddlewareList, spyCommand, spyCommandWith, spyHandler]
    | cons n ns ih =>
      intro p ctx log0
      have ih2 := ih p ctx (log0 ++ [n ++ "-before"])
      simp only [runMiddleware] at ih2 ⊢
      simp only [List.map_cons, runMiddlewareList, spyMW]
      rw [ih2]
      simp [List.append_assoc]
  · intro names r rest handler
    induction names with
    | nil =>
      intro p ctx log0
      simp [runMiddleware, runMiddlewareList, shortCircuitMW]
    | cons n ns ih =>
      intro p ctx log0
      have ih2 := ih p ctx (log0 ++ [n ++ "-before"])
      simp only [runMiddleware] at ih2 ⊢
      simp only [List.map_cons, List.cons_append, runMiddlewareList, spyMW]
      simp only [List.append_eq] at ih2 ⊢
      rw [ih2]
      simp [List.append_assoc]

/-- Claim C8, evaluated at the failing input: the coercing schema validates
"x" to the distinct value "x!", yet the chain delivers the original "x" to the
handler — next carries no value, so the parsed result of the catch-errors
validation middleware is discarded, contradicting the replace-params comment in
the source and the definition doc that the handler receives validated params. -/
theorem claim_C8 :
    coerceSchema.safeParse "x" = .ok "x!" ∧
    runMiddleware [createValidationMiddleware { catchErrors := some true }]
        coerceCommand "x" baseContext [] =
      (.ok { success := true }, ["x"]) ∧
    ("x" : String) ≠ "x!" :=
  ⟨rfl, rfl, by decide⟩

/-- Claim C9 counterexample: with a provider supplying source = palette and no
per-call overrides, the plain merge the claim describes yields source palette,
but the handler observes source unknown — execute always injects
source:"unknown" into the overrides object before merging. -/
theorem claim_C9_counterexample :
    (execute stateC9 cfgC9 () "ctx.show" (some ()) none ()).1.data = some "unknown" ∧
    (specMergedContext paletteProvider (none : Option (CtxPatch Unit))).source = "palette" ∧
    ("unknown" : String) ≠ "palette" :=
  ⟨rfl, rfl, by decide⟩

/-! Helper lemmas for claim C9: the sync step never changes extra or store, and
never changes a source that is not the literal unknown. -/

theorem sync_extra {V : Type} (m : CommandContext V) :
    (syncSourceInvocation m).extra = m.extra := by
  unfold syncSourceInvocation
  rcases hm : m.invocation with _ | inv <;> dsimp <;> split <;> rfl

theorem sync_store {V : Type} (m : CommandContext V) :
    (syncSourceInvocation m).store = m.store := by
  unfold syncSourceInvocation
  rcases hm : m.invocation with _ | inv <;> dsimp <;> split <;> rfl

theorem sync_source_of_ne {V : Type} (m : CommandContext V) (h : m.source ≠ "unknown") :
    (syncSourceInvocation m).source = m.source := by
  unfold syncSourceInvocation
  rcases hm : m.invocation with _ | inv <;> simp [h]

/-- Claim C9 amended: execute builds the context fresh per call by layering the
defaults, then the provider output, then the overrides with source defaulted to
"unknown", then syncing source with invocation.surface. Overrides win over the
provider for every key they carry (shown for extra keys present in both, for
store, and for an explicit non-unknown source); but when the caller omits source
(and no invocation is in play), the provider-supplied source does not survive:
the built context carries source "unknown". -/
theorem claim_C9_amended (V : Type) (contextProvider : Unit → CtxPatch V) (ov : CtxPatch V) :
    (∀ (k : String) (v w : V), (contextProvider ()).extra k = some w → ov.extra k = some v →
      (buildContext contextProvider (some (executePatch (some ov)))).extra k = some v) ∧
    (∀ (x : Option V), ov.store = some x →
      (buildContext contextProvider (some (executePatch (some ov)))).store = x) ∧
    (∀ (src : String), ov.source = some src → src ≠ "unknown" →
      (buildContext contextProvider (some (executePatch (some ov)))).source = src) ∧
    (ov.source = none → ov.invocation = none → (contextProvider ()).invocation = none →
      (buildContext contextProvider (some (executePatch (some ov)))).source = "unknown") := by
  refine ⟨?_, ?_, ?_, ?_⟩
  · intro k v w _hw hv
    unfold buildContext
    rw [sync_extra]
    simp [mergePatch, executePatch, hv]
  · intro x hx
    unfold buildContext
    rw [sync_store]
    simp [mergePatch, executePatch, hx]
  · intro src hsrc hne
    unfold buildContext
    rw [sync_source_of_ne]
    · simp [mergePatch, executePatch, hsrc]
    · simp [mergePatch, executePatch, hsrc, hne]
  · intro h1 h2 h3
    unfold buildContext syncSourceInvocation
    simp [mergePatch, executePatch, emptyPatch, baseContext, h1, h2, h3]

/-- Claim C9 amended witness: concrete patches exercising each conjunct. -/
theorem claim_C9_amended_witness :
    ((buildContext provW (some (executePatch (some ovW)))).extra "shade" = some ()) ∧
    ((buildContext provW (some (executePatch (some ovW)))).store = some ()) ∧
    ((buildContext provW (some (executePatch (some ovW)))).source = "mcp") ∧
    ((buildContext provW (some (executePatch (some (emptyPatch : CtxPatch Unit))))).source
      = "unknown") :=
  ⟨(claim_C9_amended Unit provW ovW).1 "shade" () () rfl rfl,
   (claim_C9_amended Unit provW ovW).2.1 (some ()) rfl,
   (claim_C9_amended Unit provW ovW).2.2.1 "mcp" rfl (by decide),
   (claim_C9_amended Unit provW emptyPatch).2.2.2 rfl rfl rfl⟩

/-! Helper lemmas for claim C6: behavior of the string primitives on clauses
built from identifier-like keys. -/

theorem dropWhile_space_eq_self (l : List Char) (h : spaceChar ∉ l) :
    l.dropWhile (· == spaceChar) = l := by
  cases l with
  | nil => rfl
  | cons c rest =>
    have hcne : c ≠ spaceChar := fun he => h (he ▸ List.mem_cons_self c rest)
    simp [List.dropWhile_cons, hcne]

theorem not_mem_reverse_of (c : Char) (l : List Char) (h : c ∉ l) : c ∉ l.reverse := by
  simp only [List.mem_reverse]
  exact h

theorem trimChars_no_space (l : List Char) (h : spaceChar ∉ l) : trimChars l = l := by
  unfold trimChars
  rw [dropWhile_space_eq_self l h,
    dropWhile_space_eq_self l.reverse (not_mem_reverse_of spaceChar l h),
    List.reverse_reverse]

theorem trimChars_append_space (k : List Char) (hk : spaceChar ∉ k) (hne : k ≠ []) :
    trimChars (k ++ [spaceChar]) = k := by
  obtain ⟨c, k2, rfl⟩ := List.exists_cons_of_ne_nil hne
  have hcne : c ≠ spaceChar := fun he => hk (he ▸ List.mem_cons_self c k2)
  unfold trimChars
  have h1 : ((c :: k2) ++ [spaceChar]).dropWhile (· == spaceChar) = (c :: k2) ++ [spaceChar] := by
    simp [List.cons_append, List.dropWhile_cons, hcne]
  rw [h1]
  have h2 : ((c :: k2) ++ [spaceChar]).reverse = spaceChar :: (c :: k2).reverse := by
    simp
  rw [h2]
  have h3 : (spaceChar :: (c :: k2).reverse).dropWhile (· == spaceChar) =
      ((c :: k2).reverse).dropWhile (· == spaceChar) := by
    simp [List.dropWhile_cons]
  rw [h3, dropWhile_space_eq_self (c :: k2).reverse (not_mem_reverse_of spaceChar (c :: k2) hk),
    List.reverse_reverse]

theorem trimChars_cons_space (k : List Char) (hk : spaceChar ∉ k) :
    trimChars (spaceChar :: k) = k := by
  unfold trimChars
  have h1 : (spaceChar :: k).dropWhile (· == spaceChar) = k.dropWhile (· == spaceChar) := by
    simp [List.dropWhile_cons]
  rw [h1, dropWhile_space_eq_self k hk,
    dropWhile_space_eq_self k.reverse (not_mem_reverse_of spaceChar k hk),
    List.reverse_reverse]

theorem splitFirst_none_of_not_mem (c0 : Char) (sep2 : List Char) :
    ∀ (l : List Char), c0 ∉ l → splitFirst (c0 :: sep2) l = none := by
  intro l
  induction l with
  | nil => intro _; rfl
  | cons c rest ih =>
    intro h
    have hcne : c0 ≠ c := fun he => h (he ▸ List.mem_cons_self c rest)
    have hpre : (c0 :: sep2).isPrefixOf (c :: rest) = false := by
      simp [List.isPrefixOf, hcne]
    have hrest : splitFirst (c0 :: sep2) rest = none :=
      ih (fun hm => h (List.mem_cons_of_mem c hm))
    simp [splitFirst, hpre, hrest]

theorem splitFirst_append_left (c0 : Char) (sep2 : List Char) :
    ∀ (a r : List Char), c0 ∉ a →
      splitFirst (c0 :: sep2) (a ++ r) =
        (splitFirst (c0 :: sep2) r).map (fun pq => (a ++ pq.1, pq.2)) := by
  intro a
  induction a with
  | nil =>
    intro r _
    cases h2 : splitFirst (c0 :: sep2) r with
    | none => simp [h2]
    | some pq => simp [h2]
  | cons c a2 ih =>
    intro r h
    have hcne : c0 ≠ c := fun he => h (he ▸ List.mem_cons_self c a2)
    have ha2 : c0 ∉ a2 := fun hm => h (List.mem_cons_of_mem c hm)
    have hpre : (c0 :: sep2).isPrefixOf (c :: (a2 ++ r)) = false := by
      simp [List.isPrefixOf, hcne]
    rw [List.cons_append]
    simp only [splitFirst, hpre, Bool.false_eq_true, if_false]
    rw [ih r ha2]
    cases h2 : splitFirst (c0 :: sep2) r with
    | none => simp [h2]
    | some pq => simp [h2, List.cons_append]

theorem isPrefixOf_append_self : ∀ (s r : List Char), s.isPrefixOf (s ++ r) = true := by
  intro s
  induction s with
  | nil =>
    intro r
    rw [List.nil_append]
    cases r <;> rfl
  | cons c s2 ih => intro r; simp [List.cons_append, List.isPrefixOf, ih r]

theorem splitFirst_self_append (sep r : List Char) (hne : sep ≠ []) :
    splitFirst sep (sep ++ r) = some ([], r) := by
  obtain ⟨c0, sep2, rfl⟩ := List.exists_cons_of_ne_nil hne
  have hpre : (c0 :: sep2).isPrefixOf (c0 :: (sep2 ++ r)) = true := by
    have h0 := isPrefixOf_append_self (c0 :: sep2) r
    rw [List.cons_append] at h0
    exact h0
  rw [List.cons_append]
  simp only [splitFirst, hpre, if_true]
  simp [List.drop_succ_cons, List.drop_left]

theorem splitOnSub_eq_pair (sep l p q : List Char)
    (h1 : splitFirst sep l = some (p, q)) (h2 : splitFirst sep q = none) :
    splitOnSub sep l = [p, q] := by
  have hl : l ≠ [] := by
    intro he
    rw [he] at h1
    exact absurd h1 (by simp [splitFirst])
  obtain ⟨c, l2, rfl⟩ := List.exists_cons_of_ne_nil hl
  unfold splitOnSub
  simp [splitOnSubF, h1, h2]

theorem evalWhenF_succ (context : List Char → Option Bool) (n : Nat) (clause : List Char) :
    evalWhenF context (n + 1) clause =
      if clause.head? = some '!' then
        !((context (clause.drop 1)).getD false)
      else if containsSub ['&', '&'] clause then
        (splitOnSub ['&', '&'] clause).all (fun part => evalWhenF context n (trimChars part))
      else if containsSub ['|', '|'] clause then
        (splitOnSub ['|', '|'] clause).any (fun part => evalWhenF context n (trimChars part))
      else
        (context clause).getD false := rfl

theorem evalWhenF_key (context : List Char → Option Bool) (k : List Char) (hk : IsKey k)
    (n : Nat) : evalWhenF context (n + 1) k = (context k).getD false := by
  have hhead : k.head? ≠ some '!' := by
    obtain ⟨c, k2, rfl⟩ := List.exists_cons_of_ne_nil hk.1
    simp only [List.head?_cons, ne_eq, Option.some.injEq]
    exact (hk.2 c (List.mem_cons_self c k2)).1
  have hamp : splitFirst ['&', '&'] k = none :=
    splitFirst_none_of_not_mem '&' ['&'] k (fun hm => ((hk.2 '&' hm).2.1) rfl)
  have hpipe : splitFirst ['|', '|'] k = none :=
    splitFirst_none_of_not_mem '|' ['|'] k (fun hm => ((hk.2 '|' hm).2.2.1) rfl)
  simp [evalWhenF, hhead, containsSub, hamp, hpipe]

theorem evalWhenF_bang (context : List Char → Option Bool) (k : List Char) (n : Nat) :
    evalWhenF context (n + 1) ('!' :: k) = !((context k).getD false) := by
  simp [evalWhenF]

theorem splitFirst_op_clause (c0 : Char) (a b : List Char) (ha : c0 ∉ a) (_hb : c0 ∉ b)
    (hcs : c0 ≠ spaceChar) :
    splitFirst [c0, c0] (a ++ ([spaceChar, c0, c0, spaceChar] ++ b)) =
      some (a ++ [spaceChar], spaceChar :: b) := by
  rw [splitFirst_append_left c0 [c0] a _ ha]
  have h1 : ([spaceChar, c0, c0, spaceChar] ++ b) =
      spaceChar :: ([c0, c0] ++ (spaceChar :: b)) := by simp
  have hpre : ([c0, c0] : List Char).isPrefixOf (spaceChar :: ([c0, c0] ++ (spaceChar :: b))) = false := by
    simp [List.isPrefixOf, hcs]
  have hrest : splitFirst [c0, c0] ([c0, c0] ++ (spaceChar :: b)) = some ([], spaceChar :: b) :=
    splitFirst_self_append [c0, c0] (spaceChar :: b) (by simp)
  rw [h1]
  simp [splitFirst, hpre, hrest, hcs]

theorem splitFirst_space_tail (c0 : Char) (b : List Char) (hb : c0 ∉ b)
    (hcs : c0 ≠ spaceChar) : splitFirst [c0, c0] (spaceChar :: b) = none :=
  splitFirst_none_of_not_mem c0 [c0] (spaceChar :: b)
    (fun hm => by
      rcases List.mem_cons.mp hm with h | h
      · exact hcs h
      · exact hb h)

theorem not_mem_op_clause (c0 d : Char) (a b : List Char) (ha : c0 ∉ a) (hb : c0 ∉ b)
    (hcs : c0 ≠ spaceChar) (hcd : c0 ≠ d) :
    c0 ∉ a ++ ([spaceChar, d, d, spaceChar] ++ b) := by
  intro hm
  simp only [List.mem_append, List.mem_cons, List.not_mem_nil, or_false] at hm
  rcases hm with h | (h | h | h | h) | h
  · exact ha h
  · exact hcs h
  · exact hcd h
  · exact hcd h
  · exact hcs h
  · exact hb h

theorem head_ne_bang_append (a r : List Char) (ha : IsKey a) :
    (a ++ r).head? ≠ some '!' := by
  obtain ⟨c, a2, rfl⟩ := List.exists_cons_of_ne_nil ha.1
  simp only [List.cons_append, List.head?_cons, ne_eq, Option.some.injEq]
  exact (ha.2 c (List.mem_cons_self c a2)).1

theorem evaluateWhen_and (context : List Char → Option Bool) (a b : List Char)
    (ha : IsKey a) (hb : IsKey b) :
    evaluateWhen context (a ++ ([spaceChar, '&', '&', spaceChar] ++ b)) =
      ((context a).getD false && (context b).getD false) := by
  have haamp : '&' ∉ a := fun hm => ((ha.2 '&' hm).2.1) rfl
  have hbamp : '&' ∉ b := fun hm => ((hb.2 '&' hm).2.1) rfl
  have haspace : spaceChar ∉ a := fun hm => ((ha.2 spaceChar hm).2.2.2) rfl
  have hbspace : spaceChar ∉ b := fun hm => ((hb.2 spaceChar hm).2.2.2) rfl
  have hsf : splitFirst ['&', '&'] (a ++ ([spaceChar, '&', '&', spaceChar] ++ b)) =
      some (a ++ [spaceChar], spaceChar :: b) :=
    splitFirst_op_clause '&' a b haamp hbamp (by decide)
  have htail : splitFirst ['&', '&'] (spaceChar :: b) = none :=
    splitFirst_space_tail '&' b hbamp (by decide)
  have hsplit : splitOnSub ['&', '&'] (a ++ ([spaceChar, '&', '&', spaceChar] ++ b)) =
      [a ++ [spaceChar], spaceChar :: b] :=
    splitOnSub_eq_pair _ _ _ _ hsf htail
  have hcontains : containsSub ['&', '&'] (a ++ ([spaceChar, '&', '&', spaceChar] ++ b)) = true := by
    unfold containsSub
    rw [hsf]
    rfl
  have hhead := head_ne_bang_append a ([spaceChar, '&', '&', spaceChar] ++ b) ha
  have hlen : (a ++ ([spaceChar, '&', '&', spaceChar] ++ b)).length =
      (a.length + b.length + 3) + 1 := by
    simp [List.length_append]
    ring
  unfold evaluateWhen
  rw [hlen, evalWhenF_succ, if_neg hhead, if_pos hcontains, hsplit]
  simp only [List.all_cons, List.all_nil, Bool.and_true]
  rw [trimChars_append_space a haspace ha.1, trimChars_cons_space b hbspace]
  rw [show a.length + b.length + 4 = (a.length + b.length + 3) + 1 from rfl]
  rw [evalWhenF_key context a ha (a.length + b.length + 3),
    evalWhenF_key context b hb (a.length + b.length + 3)]

theorem evaluateWhen_or (context : List Char → Option Bool) (a b : List Char)
    (ha : IsKey a) (hb : IsKey b) :
    evaluateWhen context (a ++ ([spaceChar, '|', '|', spaceChar] ++ b)) =
      ((context a).getD false || (context b).getD false) := by
  have haamp : '&' ∉ a := fun hm => ((ha.2 '&' hm).2.1) rfl
  have hbamp : '&' ∉ b := fun hm => ((hb.2 '&' hm).2.1) rfl
  have hapipe : '|' ∉ a := fun hm => ((ha.2 '|' hm).2.2.1) rfl
  have hbpipe : '|' ∉ b := fun hm => ((hb.2 '|' hm).2.2.1) rfl
  have haspace : spaceChar ∉ a := fun hm => ((ha.2 spaceChar hm).2.2.2) rfl
  have hbspace : spaceChar ∉ b := fun hm => ((hb.2 spaceChar hm).2.2.2) rfl
  have hnoamp : splitFirst ['&', '&'] (a ++ ([spaceChar, '|', '|', spaceChar] ++ b)) = none :=
    splitFirst_none_of_not_mem '&' ['&'] _
      (not_mem_op_clause '&' '|' a b haamp hbamp (by decide) (by decide))
  have hsf : splitFirst ['|', '|'] (a ++ ([spaceChar, '|', '|', spaceChar] ++ b)) =
      some (a ++ [spaceChar], spaceChar :: b) :=
    splitFirst_op_clause '|' a b hapipe hbpipe (by decide)
  have htail : splitFirst ['|', '|'] (spaceChar :: b) = none :=
    splitFirst_space_tail '|' b hbpipe (by decide)
  have hsplit : splitOnSub ['|', '|'] (a ++ ([spaceChar, '|', '|', spaceChar] ++ b)) =
      [a ++ [spaceChar], spaceChar :: b] :=
    splitOnSub_eq_pair _ _ _ _ hsf htail
  have hnocontains : ¬(containsSub ['&', '&'] (a ++ ([spaceChar, '|', '|', spaceChar] ++ b)) = true) := by
    unfold containsSub
    rw [hnoamp]
    exact Bool.false_ne_true
  have hcontains : containsSub ['|', '|'] (a ++ ([spaceChar, '|', '|', spaceChar] ++ b)) = true := by
    unfold containsSub
    rw [hsf]
    rfl
  have hhead := head_ne_bang_append a ([spaceChar, '|', '|', spaceChar] ++ b) ha
  have hlen : (a ++ ([spaceChar, '|', '|', spaceChar] ++ b)).length =
      (a.length + b.length + 3) + 1 := by
    simp [List.length_append]
    ring
  unfold evaluateWhen
  rw [hlen, evalWhenF_succ, if_neg hhead, if_neg hnocontains, if_pos hcontains, hsplit]
  simp only [List.any_cons, List.any_nil, Bool.or_false]
  rw [trimChars_append_space a haspace ha.1, trimChars_cons_space b hbspace]
  rw [show a.length + b.length + 4 = (a.length + b.length + 3) + 1 from rfl]
  rw [evalWhenF_key context a ha (a.length + b.length + 3),
    evalWhenF_key context b hb (a.length + b.length + 3)]

/-- Claim C6: the when-clause evaluator resolves a bare key to its environment
value (false when absent), a bang-prefixed key to the negation of that value,
keys joined by the and operator to their conjunction, keys joined by the or
operator to their disjunction; and a registry configured without an evaluator
treats every precondition as satisfied: isAvailable is true for every registered
command and the when guard of execute never fires. -/
theorem claim_C6 :
    (∀ (context : List Char → Option Bool) (k : List Char), IsKey k →
      evaluateWhen context k = (context k).getD false) ∧
    (∀ (context : List Char → Option Bool) (k : List Char), IsKey k →
      evaluateWhen context ('!' :: k) = !((context k).getD false)) ∧
    (∀ (context : List Char → Option Bool) (a b : List Char), IsKey a → IsKey b →
      evaluateWhen context (a ++ ([spaceChar, '&', '&', spaceChar] ++ b)) =
        ((context a).getD false && (context b).getD false)) ∧
    (∀ (context : List Char → Option Bool) (a b : List Char), IsKey a → IsKey b →
      evaluateWhen context (a ++ ([spaceChar, '|', '|', spaceChar] ++ b)) =
        ((context a).getD false || (context b).getD false)) ∧
    (∀ (σ P D V : Type) (s : RegistryState σ P D V) (cfg : RegistryConfig σ P D V)
       (id : String) (cmd : CommandDefinition σ P D V),
      cfg.evaluateWhen = none →
      (s.commands id = some cmd → isAvailable s cfg id = true) ∧
      (∀ (c : CommandDefinition σ P D V), whenBlocked cfg c = false)) := by
  refine ⟨?_, ?_, ?_, ?_, ?_⟩
  · intro context k hk
    exact evalWhenF_key context k hk k.length
  · intro context k _hk
    exact evalWhenF_bang context k ('!' :: k).length
  · exact evaluateWhen_and
  · exact evaluateWhen_or
  · intro σ P D V s cfg id cmd hnone
    constructor
    · intro hcmd
      simp only [isAvailable, hcmd, effEvaluateWhen, hnone, Option.getD_none]
      cases strTruthy cmd.when <;> simp
    · intro c
      simp [whenBlocked, effEvaluateWhen, hnone]

/-- Claim C6 witness: the evaluator on the concrete environment with a true and
b false, and the permissive default on a concrete registry. -/
theorem claim_C6_witness :
    (evaluateWhen envW ['a'] = true) ∧
    (evaluateWhen envW ('!' :: ['b']) = true) ∧
    (evaluateWhen envW (['a'] ++ ([spaceChar, '&', '&', spaceChar] ++ ['b'])) = false) ∧
    (evaluateWhen envW (['a'] ++ ([spaceChar, '|', '|', spaceChar] ++ ['b'])) = true) ∧
    (isAvailable stateC2 ({} : RegistryConfig Unit Unit Unit Unit) "demo.gated" = true) ∧
    (whenBlocked ({} : RegistryConfig Unit Unit Unit Unit) whenCmd = false) :=
  ⟨(claim_C6.1 envW ['a'] (by decide)).trans (by decide),
   (claim_C6.2.1 envW ['b'] (by decide)).trans (by decide),
   (claim_C6.2.2.1 envW ['a'] ['b'] (by decide) (by decide)).trans (by decide),
   (claim_C6.2.2.2.1 envW ['a'] ['b'] (by decide) (by decide)).trans (by decide),
   (claim_C6.2.2.2.2 Unit Unit Unit Unit stateC2 {} "demo.gated" whenCmd rfl).1 rfl,
   (claim_C6.2.2.2.2 Unit Unit Unit Unit stateC2 {} "demo.gated" whenCmd rfl).2 whenCmd⟩

end Wrapex
